import Mathlib

/-!
# Verification of the variant encoding / augmentation core (`d4_generation.py`)

Shallow embedding of the functions `augment`, `data_generator_vals` and the
class `DataGenerator` from `src/d4_generation.py`, together with theorems
settling the specification's claims about them.

Modelling conventions:
* numpy 1-D arrays of strings / floats / ints become `List String` / `List ℚ` /
  `List Nat`; 2-D arrays become `List (List _)`.
* Python `dict`s (the residue property tables, supplied by the external module
  `d4_utils`) become association lists `List (Char × ℚ)`; `dict.get` becomes
  `dictGet`, returning `Option ℚ` (`none` models Python's `None`).
* `np.random.shuffle` is nondeterministic; each call is parametrised by the
  permutation it produces (the `shuffles` argument of `augment`, the `perm`
  argument of `DataGenerator.onEpochEnd`).
* out-of-range list reads use `List.getD` with a default; the theorems carry
  the length hypotheses under which the source's numpy operations are defined.
-/

/-! ## Python / numpy primitives -/

/-- numpy fancy indexing `l[idxs]`: pick the elements of `l` at the positions
listed in `idxs`. -/
def npIndex (l : List α) (dflt : α) (idxs : List Nat) : List α :=
  idxs.map fun i => l.getD i dflt

/-- numpy element-wise addition of two equal-length arrays (the label dtype is
kept generic: the source's numpy arrays are dtype-polymorphic, and the claims
use label addition only). -/
def npAdd [Add β] (a b : List β) : List β := a.zipWith (· + ·) b

/-- numpy element-wise addition of two equal-length int arrays. -/
def npAddN (a b : List Nat) : List Nat := a.zipWith (· + ·) b

/-- The positions of `0, …, n-1` that survive `np.delete(·, idxs)`. -/
def keepIdxs (n : Nat) (idxs : List Nat) : List Nat :=
  (List.range n).filter fun i => decide (i ∉ idxs)

/-- `np.delete(l, idxs)`: remove the entries of `l` whose position is listed
in `idxs`. -/
def npDelete (l : List α) (dflt : α) (idxs : List Nat) : List α :=
  (keepIdxs l.length idxs).map fun i => l.getD i dflt

/-- Python `str.split(",")` on the underlying character list. -/
def splitCommaChars : List Char → List (List Char)
  | [] => [[]]
  | c :: cs =>
    if c = ',' then [] :: splitCommaChars cs
    else
      match splitCommaChars cs with
      | [] => [[c]]
      | t :: ts => (c :: t) :: ts

/-- Python `s.split(",")`. -/
def splitComma (s : String) : List String :=
  (splitCommaChars s.data).map String.mk

/-- Python `",".join(l)`. -/
def joinComma : List String → String
  | [] => ""
  | [s] => s
  | s :: t :: ts => s ++ "," ++ joinComma (t :: ts)

/-- Lexicographic (code-point) comparison of character lists, the order numpy
uses on unicode string arrays. -/
def charListLt : List Char → List Char → Bool
  | [], [] => false
  | [], _ :: _ => true
  | _ :: _, [] => false
  | a :: as, b :: bs =>
    if a.toNat < b.toNat then true
    else if b.toNat < a.toNat then false
    else charListLt as bs

/-- Strict lexicographic order on strings. -/
def strLt (a b : String) : Bool := charListLt a.data b.data

/-- Reflexive lexicographic order on strings. -/
def strLe (a b : String) : Bool := !strLt b a

/-- Insert a string into an already sorted list, keeping it sorted. -/
def strInsert (v : String) : List String → List String
  | [] => [v]
  | x :: xs => if strLe v x then v :: x :: xs else x :: strInsert v xs

/-- `np.sort` on a 1-D string array: ascending lexicographic order. -/
def strSort : List String → List String
  | [] => []
  | x :: xs => strInsert x (strSort xs)

/-- Index of the first occurrence of `v` in `l` (`0` when absent), as used by
`np.unique(·, return_index=True)`. -/
def firstIdx : List String → String → Nat
  | [], _ => 0
  | x :: xs, v => if x = v then 0 else firstIdx xs v + 1

/-- `np.unique(l, return_index=True)`: the first-occurrence indices of the
distinct values of `l`, listed in ascending order of those values. -/
def npUniqueIdx (l : List String) : List Nat :=
  (strSort l.dedup).map fun v => firstIdx l v

/-! ## `augment` (src/d4_generation.py, lines 42–116)

The Python function mutates no argument in place except the locally created
`pos_inds` (shuffled by `np.random.shuffle`); all other numpy operations
(`labels + labels[pos_inds]`, fancy indexing, `np.delete`, `np.sort`)
allocate fresh arrays.  The embedding threads an explicit state holding the
three input arrays and the accumulators, so that the frame claim (inputs
unchanged) is a theorem about the final state. -/

/-- The named arrays live in `augment`'s body: the three inputs, the shuffled
index array `pos_inds`, and the accumulators `nd`, `nl`, `nm`. -/
structure AugState (β : Type) where
  data : List String
  labels : List β
  mutations : List Nat
  pos_inds : List Nat
  nd : List String
  nl : List β
  nm : List Nat
deriving Repr, DecidableEq

/-- Sorted concatenation of the two variants' mutation tokens:
`np.sort(j.split(",") + k.split(","))` in the source. -/
def candTokens (j k : String) : List String :=
  strSort (splitComma j ++ splitComma k)

/-- The `to_del` list of one augmentation run: indices `cj` whose combined
token list does not have exactly `new_mutations[cj]` distinct tokens
(`len(np.unique(pos_new_data)) != new_mutations[cj]`). -/
def runToDel (data : List String) (mutations : List Nat) (shuffled : List Nat) :
    List Nat :=
  (List.range (data.zip (npIndex data "" shuffled)).length).filter fun cj =>
    decide ((candTokens ((data.zip (npIndex data "" shuffled)).getD cj ("", "")).1
        ((data.zip (npIndex data "" shuffled)).getD cj ("", "")).2).dedup.length ≠
      (npAddN mutations (npIndex mutations 0 shuffled)).getD cj 0)

/-- The `new_data` list of one augmentation run: for every pair of an original
and a permuted variant, the comma-join of the sorted token concatenation. -/
def runNewData (data : List String) (shuffled : List Nat) : List String :=
  (data.zip (npIndex data "" shuffled)).map fun jk =>
    joinComma (candTokens jk.1 jk.2)

/-- One iteration of `augment`'s `for i in range(runs)` loop; `shuffled` is
the value `np.random.shuffle` leaves in `pos_inds`. -/
def augmentRun [Add β] [Inhabited β] (shuffled : List Nat) (s : AugState β) :
    AugState β :=
  let new_labels := npAdd s.labels (npIndex s.labels default shuffled)
  let new_mutations := npAddN s.mutations (npIndex s.mutations 0 shuffled)
  let to_del := runToDel s.data s.mutations shuffled
  { s with
    pos_inds := shuffled
    nd := s.nd ++ npDelete (runNewData s.data shuffled) "" to_del
    nl := s.nl ++ npDelete new_labels default to_del
    nm := s.nm ++ npDelete new_mutations 0 to_del }

/-- State at entry of `augment`'s loop: `pos_inds = np.arange(len(labels))`,
empty accumulators. -/
def augmentInit (data : List String) (labels : List β) (mutations : List Nat) :
    AugState β :=
  { data := data, labels := labels, mutations := mutations
    pos_inds := List.range labels.length, nd := [], nl := [], nm := [] }

/-- `augment`'s loop over the runs; one entry of `shuffles` per run. -/
def augmentLoop [Add β] [Inhabited β] (shuffles : List (List Nat))
    (s : AugState β) : AugState β :=
  shuffles.foldl (fun st sh => augmentRun sh st) s

/-- `augment(data, labels, mutations, runs, un)` from `d4_generation.py`.
`shuffles` lists, run by run, the permutation `np.random.shuffle` produces in
`pos_inds` (so `runs = shuffles.length`). -/
def augment [Add β] [Inhabited β] (shuffles : List (List Nat))
    (data : List String) (labels : List β) (mutations : List Nat) (un : Bool) :
    List String × List β × List Nat :=
  let s := augmentLoop shuffles (augmentInit data labels mutations)
  if un then
    let uni := npUniqueIdx s.nd
    (npIndex s.nd "" uni, npIndex s.nl default uni, npIndex s.nm 0 uni)
  else
    (s.nd, s.nl, s.nm)

/-! ## `data_generator_vals` (src/d4_generation.py, lines 119–212)

The residue property tables (`hydrophobicity`, `h_bonding`, `charge`, `sasa`,
`side_chain_length`, `aa_dict_pos`) are fixed data imported from the external
module `d4_utils` (not under `src/`), so the embedding takes them as
parameters (association lists, modelling Python dicts). -/

/-- Python `dict.get(key)`: the value when present, `none` (Python `None`)
when the key is missing — `dict.get` never raises. -/
def dictGet (d : List (Char × ℚ)) (c : Char) : Option ℚ :=
  (d.find? fun p => p.1 == c).map Prod.snd

/-- Python `max` over a list.  The source applies it to nonempty
`dict.values()` lists; on `[]`, where Python would raise, the embedding
returns `0`. -/
def pyMax : List ℚ → ℚ
  | [] => 0
  | x :: xs => xs.foldl max x

/-- Python `min` over a list, `0` on `[]` (see `pyMax`). -/
def pyMin : List ℚ → ℚ
  | [] => 0
  | x :: xs => xs.foldl min x

/-- Entry `(i, j)` of `np.arange(n*n).reshape(n, n) / (n*n - 1)`.
For `n = 1` numpy computes `0/0 = nan` (a warning, not an exception); ℚ's
division-by-zero convention gives `0` instead.  Both junk values are
overwritten by `np.fill_diagonal(·, 0)` before they can be observed, since
for `n = 1` the only entry is the diagonal one. -/
def preMatIndex (n i j : Nat) : ℚ := (i * n + j : ℚ) / ((n * n : ℚ) - 1)

/-- `np.triu` applied to `preMatIndex`: keep the upper triangle. -/
def triuIndex (n i j : Nat) : ℚ := if i ≤ j then preMatIndex n i j else 0

/-- `pre_mat_index + pre_mat_index.T - np.diag(np.diag(pre_mat_index))`. -/
def symIndex (n i j : Nat) : ℚ :=
  triuIndex n i j + triuIndex n j i - (if i = j then triuIndex n i i else 0)

/-- Entry `(i, j)` of `mat_index` after `np.fill_diagonal(mat_index, 0)`. -/
def matIndexEntry (n i j : Nat) : ℚ := if i = j then 0 else symIndex n i j

/-- The full `n×n` matrix `mat_index`. -/
def matIndexMat (n : Nat) : List (List ℚ) :=
  (List.range n).map fun i => (List.range n).map fun j => matIndexEntry n i j

/-- The tuple returned by `data_generator_vals` (named fields instead of a
13-tuple). -/
structure DGVals where
  hm_pos_vals : List ℚ
  hp_norm : ℚ
  ia_norm : ℚ
  hm_converted : List (Option ℚ)
  hp_converted : List (Option ℚ)
  cm_converted : List (Option ℚ)
  ia_converted : List (Option ℚ)
  mat_index : List (List ℚ)
  cl_converted : List (Option ℚ)
  cl_norm : ℚ
  co_converted : Option (List (Option ℚ))
  co_table : Option (List (List ℚ))
  co_rows : Option (List Nat)

/-- `data_generator_vals(wt_seq, alignment_path, alignment_base)`.
`alignment` bundles `alignment_path`/`alignment_base` with the result of the
external `alignment_table` call (`d4_alignments`, not under `src/`):
`none` models `alignment_path is None`. -/
def data_generator_vals (h_bonding hydrophobicity charge sasa side_chain_length
    aa_dict_pos : List (Char × ℚ)) (wt_seq : List Char)
    (alignment : Option (List (List ℚ) × List Nat)) : DGVals :=
  let h_vals := hydrophobicity.map Prod.snd
  { hm_pos_vals := [2, 3, 6, 9]
    hp_norm := |pyMax h_vals - pyMin h_vals|
    ia_norm := pyMax (sasa.map Prod.snd) * 2
    cl_norm := 2 * pyMax (side_chain_length.map Prod.snd)
    hm_converted := wt_seq.map (dictGet h_bonding)
    hp_converted := wt_seq.map (dictGet hydrophobicity)
    cm_converted := wt_seq.map (dictGet charge)
    ia_converted := wt_seq.map (dictGet sasa)
    cl_converted := wt_seq.map (dictGet side_chain_length)
    mat_index := matIndexMat wt_seq.length
    co_converted := alignment.map fun _ => wt_seq.map (dictGet aa_dict_pos)
    co_table := alignment.map Prod.fst
    co_rows := alignment.map Prod.snd }

/-! ## `DataGenerator` (src/d4_generation.py, lines 246–427) -/

/-- The attributes of a `DataGenerator` instance.  `idx` is `none` until
`on_epoch_end` first runs: `__init__` never creates the attribute.  The label
entries stay dtype-generic (`β`), as in `augment`. -/
structure DataGenerator (β : Type) where
  features : List String
  labels : List β
  interaction_matrix : List (List Bool)
  dim : Nat × Nat
  n_channels : Nat
  batch_size : Nat
  first_ind : Nat
  hm_converted : List (Option ℚ)
  hm_pos_vals : List ℚ
  factor : List (List ℚ)
  hp_converted : List (Option ℚ)
  hp_norm : ℚ
  cm_converted : List (Option ℚ)
  ia_converted : List (Option ℚ)
  ia_norm : ℚ
  mat_index : List (List ℚ)
  cl_converted : List (Option ℚ)
  cl_norm : ℚ
  dist_mat : List (List ℚ)
  dist_th : ℚ
  co_converted : Option (List (Option ℚ))
  co_table : Option (List (List ℚ))
  co_rows : Option (List Nat)
  shuffle : Bool
  train : Bool
  idx : Option (List Nat)

/-- `DataGenerator.__init__`: a sequence of plain attribute assignments — the
arguments are stored unchanged and nothing is validated or compared. -/
def DataGenerator.init (features : List String) (labels : List β)
    (interaction_matrix : List (List Bool)) (dim : Nat × Nat) (n_channels : Nat)
    (batch_size : Nat) (first_ind : Nat) (hm_converted : List (Option ℚ))
    (hm_pos_vals : List ℚ) (factor : List (List ℚ))
    (hp_converted : List (Option ℚ)) (hp_norm : ℚ)
    (cm_converted : List (Option ℚ)) (ia_converted : List (Option ℚ))
    (ia_norm : ℚ) (mat_index : List (List ℚ)) (cl_converted : List (Option ℚ))
    (cl_norm : ℚ) (dist_mat : List (List ℚ)) (dist_th : ℚ)
    (co_converted : Option (List (Option ℚ)))
    (co_table : Option (List (List ℚ))) (co_rows : Option (List Nat))
    (shuffle : Bool) (train : Bool) : DataGenerator β :=
  { features, labels, interaction_matrix, dim, n_channels, batch_size,
    first_ind, hm_converted, hm_pos_vals, factor, hp_converted, hp_norm,
    cm_converted, ia_converted, ia_norm, mat_index, cl_converted, cl_norm,
    dist_mat, dist_th, co_converted, co_table, co_rows, shuffle, train,
    idx := none }

/-- `__len__`: `int(np.ceil(len(self.features) / self.batch_size))`. -/
def DataGenerator.lenBatches (g : DataGenerator β) : Nat :=
  (⌈(g.features.length : ℚ) / (g.batch_size : ℚ)⌉).toNat

/-- `__getitem__(idx)`: slices `self.features[idx*bs : (idx+1)*bs]` and
`self.labels[idx*bs : (idx+1)*bs]` — directly from the stored arrays, without
consulting `self.idx`.  `__batch_variants` then encodes the feature window
through the external numeric kernel `model_interactions` (`d4_interactions`,
not under `src/`), one tensor per window entry, so batch contents and order
are fully determined by the windows returned here; the label window reaches
the caller only when `self.train` is set. -/
def DataGenerator.getItem (g : DataGenerator β) (idx : Nat) :
    List String × Option (List β) :=
  let features_batch := (g.features.drop (idx * g.batch_size)).take g.batch_size
  let label_batch := (g.labels.drop (idx * g.batch_size)).take g.batch_size
  if g.train then (features_batch, some label_batch)
  else (features_batch, none)

/-- `on_epoch_end()`: `self.idx = np.arange(len(self.features))`, shuffled in
place when `self.shuffle`; `perm` is the permutation `np.random.shuffle`
produces. -/
def DataGenerator.onEpochEnd (g : DataGenerator β) (perm : List Nat) :
    DataGenerator β :=
  { g with
    idx := some (if g.shuffle then perm else List.range g.features.length) }

/-! ## Statement-level definitions and concrete fixtures -/

/-- The sequence position a mutation token names: its digit substring
(data model: a token like `"S1A"` is original residue, 1-based position,
substituted residue). -/
def tokenPos (t : String) : String := String.mk (t.data.filter fun c => c.isDigit)

/-- A one-entry property table, used as concrete input in counterexamples:
only the residue letter `A` is known to it. -/
def tblA : List (Char × ℚ) := [('A', 1)]

/-- A concrete `3×3` boolean contact mask. -/
def imx3 : List (List Bool) :=
  [[true, true, true], [true, true, true], [true, true, true]]

/-- A concrete two-sample generator (`batch_size = 1`, `shuffle = True`,
`train = True`). -/
def gToy : DataGenerator ℤ :=
  DataGenerator.init ["A", "B"] [10, 20] [[false]] (1, 1) 6 1 0 [] [] [] [] 0
    [] [] 0 [] [] 0 [] 0 none none none true true

/-- A concrete generator with `N = 105` samples and `batch_size = 32`. -/
def g105 : DataGenerator ℤ :=
  DataGenerator.init (List.replicate 105 "") (List.replicate 105 0) [] (0, 0)
    6 32 0 [] [] [] [] 0 [] [] 0 [] [] 0 [] 0 none none none true true

/-! ## Helper lemmas about the numpy primitives -/

theorem length_npIndex (l : List α) (d : α) (idxs : List Nat) :
    (npIndex l d idxs).length = idxs.length := by
  simp [npIndex]

theorem getD_npIndex (l : List α) (d : α) (idxs : List Nat) (i : Nat)
    (h : i < idxs.length) :
    (npIndex l d idxs).getD i d = l.getD (idxs.getD i 0) d := by
  have h' : i < (npIndex l d idxs).length := by simpa [length_npIndex] using h
  rw [List.getD_eq_getElem _ _ h', List.getD_eq_getElem _ _ h]
  simp [npIndex]

theorem getD_zipWith (f : α → γ → δ) (a : List α) (b : List γ) (i : Nat)
    (da : α) (dc : γ) (dd : δ) (ha : i < a.length) (hb : i < b.length) :
    (a.zipWith f b).getD i dd = f (a.getD i da) (b.getD i dc) := by
  have h' : i < (a.zipWith f b).length := by
    rw [List.length_zipWith]; omega
  rw [List.getD_eq_getElem _ _ h', List.getD_eq_getElem _ _ ha,
    List.getD_eq_getElem _ _ hb]
  simp

theorem getD_zip (a : List α) (b : List γ) (i : Nat) (da : α) (db : γ)
    (ha : i < a.length) (hb : i < b.length) :
    (a.zip b).getD i (da, db) = (a.getD i da, b.getD i db) := by
  have h' : i < (a.zip b).length := by
    rw [List.length_zip]; omega
  rw [List.getD_eq_getElem _ _ h', List.getD_eq_getElem _ _ ha,
    List.getD_eq_getElem _ _ hb]
  simp

theorem getD_map (f : α → γ) (l : List α) (i : Nat) (da : α) (dc : γ)
    (h : i < l.length) :
    (l.map f).getD i dc = f (l.getD i da) := by
  have h' : i < (l.map f).length := by simpa using h
  rw [List.getD_eq_getElem _ _ h', List.getD_eq_getElem _ _ h]
  simp

theorem getD_mem (l : List α) (i : Nat) (d : α) (h : i < l.length) :
    l.getD i d ∈ l := by
  rw [List.getD_eq_getElem _ _ h]
  exact List.getElem_mem h

theorem mem_keepIdxs {n : Nat} {idxs : List Nat} {i : Nat} :
    i ∈ keepIdxs n idxs ↔ i < n ∧ i ∉ idxs := by
  simp [keepIdxs]

theorem length_keepIdxs_lt {n : Nat} {idxs : List Nat} {i : Nat}
    (hi : i < n) (hmem : i ∈ idxs) : (keepIdxs n idxs).length < n := by
  have h := (List.length_filter_lt_length_iff_exists
    (l := List.range n) (p := fun i => decide (i ∉ idxs))).2
    ⟨i, by simpa using hi, by simpa using hmem⟩
  simpa [keepIdxs] using h

theorem length_npDelete_lt (l : List α) (d : α) (idxs : List Nat) (i : Nat)
    (hi : i < l.length) (hmem : i ∈ idxs) :
    (npDelete l d idxs).length < l.length := by
  simpa [npDelete] using length_keepIdxs_lt hi hmem

/-! ## Helper lemmas about the lexicographic string order and `strSort` -/

theorem charListLt_asymm :
    ∀ (a b : List Char), charListLt a b = true → charListLt b a = false
  | [], [] => by simp [charListLt]
  | [], _ :: _ => by simp [charListLt]
  | _ :: _, [] => by simp [charListLt]
  | x :: xs, y :: ys => by
    intro h
    simp only [charListLt] at h ⊢
    by_cases h1 : x.toNat < y.toNat
    · have h2 : ¬ y.toNat < x.toNat := by omega
      rw [if_neg h2, if_pos h1]
    · by_cases h2 : y.toNat < x.toNat
      · rw [if_neg h1, if_pos h2] at h
        exact absurd h (by simp)
      · rw [if_neg h1, if_neg h2] at h
        rw [if_neg h2, if_neg h1]
        exact charListLt_asymm xs ys h

theorem charListLt_co_trans :
    ∀ (a b c : List Char), charListLt c a = true →
      charListLt b a = true ∨ charListLt c b = true
  | [], [], c => fun h => by cases c <;> simp [charListLt] at h
  | [], _ :: _, c => fun h => by cases c <;> simp [charListLt] at h
  | _ :: _, [], _ => fun _ => Or.inl (by simp [charListLt])
  | _ :: _, _ :: _, [] => fun _ => Or.inr (by simp [charListLt])
  | x :: xs, y :: ys, z :: zs => by
    intro h
    by_cases hyx : y.toNat < x.toNat
    · exact Or.inl (by simp only [charListLt]; rw [if_pos hyx])
    · by_cases hzy : z.toNat < y.toNat
      · exact Or.inr (by simp only [charListLt]; rw [if_pos hzy])
      · have hzx : ¬ z.toNat < x.toNat := by omega
        simp only [charListLt] at h
        by_cases hxz : x.toNat < z.toNat
        · rw [if_neg hzx, if_pos hxz] at h
          exact absurd h (by simp)
        · rw [if_neg hzx, if_neg hxz] at h
          have hxy : ¬ x.toNat < y.toNat := by omega
          have hyz : ¬ y.toNat < z.toNat := by omega
          rcases charListLt_co_trans xs ys zs h with hl | hr
          · exact Or.inl (by
              simp only [charListLt]; rw [if_neg hyx, if_neg hxy]; exact hl)
          · exact Or.inr (by
              simp only [charListLt]; rw [if_neg hzy, if_neg hyz]; exact hr)

theorem strLe_total (a b : String) (h : strLe a b = false) :
    strLe b a = true := by
  have h' : charListLt b.data a.data = true := by
    simpa [strLe, strLt] using h
  simp [strLe, strLt, charListLt_asymm _ _ h']

theorem strLe_trans {a b c : String} (h1 : strLe a b = true)
    (h2 : strLe b c = true) : strLe a c = true := by
  simp only [strLe, strLt, Bool.not_eq_true'] at h1 h2 ⊢
  by_contra hca
  rw [Bool.not_eq_false] at hca
  rcases charListLt_co_trans a.data b.data c.data hca with h | h
  · rw [h] at h1; exact absurd h1 (by simp)
  · rw [h] at h2; exact absurd h2 (by simp)

theorem mem_strInsert {v y : String} {l : List String} :
    y ∈ strInsert v l ↔ y = v ∨ y ∈ l := by
  induction l with
  | nil => simp [strInsert]
  | cons x xs ih =>
    simp only [strInsert]
    split
    · simp only [List.mem_cons]
      try tauto
    · simp only [List.mem_cons, ih]
      try tauto

theorem perm_strInsert (v : String) (l : List String) :
    List.Perm (strInsert v l) (v :: l) := by
  induction l with
  | nil => exact List.Perm.refl _
  | cons x xs ih =>
    simp only [strInsert]
    split
    · exact List.Perm.refl _
    · exact (ih.cons x).trans (List.Perm.swap v x xs)

theorem perm_strSort (l : List String) : List.Perm (strSort l) l := by
  induction l with
  | nil => exact List.Perm.refl _
  | cons x xs ih => exact (perm_strInsert x (strSort xs)).trans (ih.cons x)

theorem pairwise_strInsert (v : String) (l : List String)
    (h : List.Pairwise (fun a b => strLe a b = true) l) :
    List.Pairwise (fun a b => strLe a b = true) (strInsert v l) := by
  induction l with
  | nil => simp [strInsert]
  | cons x xs ih =>
    rw [List.pairwise_cons] at h
    simp only [strInsert]
    split
    · rename_i hvx
      rw [List.pairwise_cons]
      refine ⟨?_, List.pairwise_cons.2 h⟩
      intro y hy
      rcases List.mem_cons.1 hy with rfl | hy
      · exact hvx
      · exact strLe_trans hvx (h.1 y hy)
    · rename_i hvx
      rw [List.pairwise_cons]
      refine ⟨?_, ih h.2⟩
      intro y hy
      rcases mem_strInsert.1 hy with rfl | hy
      · exact strLe_total _ _ (by simpa using hvx)
      · exact h.1 y hy

theorem sorted_strSort (l : List String) :
    List.Pairwise (fun a b => strLe a b = true) (strSort l) := by
  induction l with
  | nil => exact List.Pairwise.nil
  | cons x xs ih => exact pairwise_strInsert x (strSort xs) ih

theorem mem_strSort {l : List String} {v : String} : v ∈ strSort l ↔ v ∈ l :=
  (perm_strSort l).mem_iff

theorem length_strSort (l : List String) : (strSort l).length = l.length :=
  (perm_strSort l).length_eq

theorem nodup_strSort {l : List String} : (strSort l).Nodup ↔ l.Nodup :=
  (perm_strSort l).nodup_iff

/-! ## Helper lemmas about `firstIdx` and `npUniqueIdx` -/

theorem firstIdx_lt_length :
    ∀ {l : List String} {v : String}, v ∈ l → firstIdx l v < l.length
  | x :: xs, v, h => by
    simp only [firstIdx]
    split
    · simp
    · rename_i hne
      have hv : v ∈ xs := by
        rcases List.mem_cons.1 h with rfl | h
        · exact absurd rfl hne
        · exact h
      simpa using firstIdx_lt_length hv

theorem getD_firstIdx :
    ∀ {l : List String} {v : String}, v ∈ l → ∀ (d : String),
      l.getD (firstIdx l v) d = v
  | x :: xs, v, h, d => by
    simp only [firstIdx]
    split
    · rename_i he; simpa using he
    · rename_i hne
      have hv : v ∈ xs := by
        rcases List.mem_cons.1 h with rfl | h
        · exact absurd rfl hne
        · exact h
      simpa using getD_firstIdx hv d

theorem getD_lt_firstIdx :
    ∀ {l : List String} {v : String} {j : Nat}, j < firstIdx l v →
      ∀ (d : String), l.getD j d ≠ v
  | [], v, j, hj, d => by simp [firstIdx] at hj
  | x :: xs, v, j, hj, d => by
    simp only [firstIdx] at hj
    split at hj
    · omega
    · rename_i hne
      cases j with
      | zero => simpa using hne
      | succ j => simpa using getD_lt_firstIdx (by omega) d

theorem npIndex_npUniqueIdx (l : List String) :
    npIndex l "" (npUniqueIdx l) = strSort l.dedup := by
  rw [npUniqueIdx, npIndex, List.map_map]
  have h : ∀ v ∈ strSort l.dedup,
      ((fun i => l.getD i "") ∘ fun v => firstIdx l v) v = id v := by
    intro v hv
    have hv' : v ∈ l := List.mem_dedup.1 (mem_strSort.1 hv)
    simpa using getD_firstIdx hv' ""
  rw [List.map_congr_left h, List.map_id]

/-! ## Helper lemmas about `augment` -/

theorem getD_range (n i : Nat) (h : i < n) : (List.range n).getD i 0 = i := by
  rw [List.getD_eq_getElem _ _ (by simpa using h)]
  simp

theorem augmentRun_frame [Add β] [Inhabited β] (sh : List Nat) (s : AugState β) :
    (augmentRun sh s).data = s.data ∧ (augmentRun sh s).labels = s.labels ∧
      (augmentRun sh s).mutations = s.mutations :=
  ⟨rfl, rfl, rfl⟩

theorem augmentLoop_cons [Add β] [Inhabited β] (a : List Nat)
    (t : List (List Nat)) (s : AugState β) :
    augmentLoop (a :: t) s = augmentLoop t (augmentRun a s) := rfl

theorem augment_true_fst [Add β] [Inhabited β] (shuffles : List (List Nat))
    (data : List String) (labels : List β) (mutations : List Nat) :
    (augment shuffles data labels mutations true).1 =
      npIndex (augmentLoop shuffles (augmentInit data labels mutations)).nd ""
        (npUniqueIdx (augmentLoop shuffles (augmentInit data labels mutations)).nd) :=
  rfl

theorem augment_single_run [Add β] [Inhabited β] (sh : List Nat)
    (data : List String) (labels : List β) (mutations : List Nat) :
    augment [sh] data labels mutations false =
      (npDelete (runNewData data sh) "" (runToDel data mutations sh),
       npDelete (npAdd labels (npIndex labels default sh)) default
         (runToDel data mutations sh),
       npDelete (npAddN mutations (npIndex mutations 0 sh)) 0
         (runToDel data mutations sh)) := by
  simp [augment, augmentLoop, augmentRun, augmentInit]

/-- **C9.**  `augment` leaves its input arrays unchanged: after the loop over
all runs, the `data`, `labels` and `mutations` arrays of the threaded state —
the arrays the caller passed in — are exactly the initial ones.  Every numpy
operation in the body (`labels + labels[pos_inds]`, fancy indexing,
`np.delete`, `np.sort`) allocates a fresh array; the only in-place update,
`np.random.shuffle`, hits the locally created `pos_inds`. -/
theorem augment_preserves_inputs [Add β] [Inhabited β]
    (shuffles : List (List Nat)) (data : List String) (labels : List β)
    (mutations : List Nat) :
    (augmentLoop shuffles (augmentInit data labels mutations)).data = data ∧
    (augmentLoop shuffles (augmentInit data labels mutations)).labels = labels ∧
    (augmentLoop shuffles (augmentInit data labels mutations)).mutations =
      mutations := by
  have h : ∀ (t : List (List Nat)) (s : AugState β),
      (augmentLoop t s).data = s.data ∧ (augmentLoop t s).labels = s.labels ∧
        (augmentLoop t s).mutations = s.mutations := by
    intro t
    induction t with
    | nil => exact fun s => ⟨rfl, rfl, rfl⟩
    | cons a t ih =>
      intro s
      rcases ih (augmentRun a s) with ⟨h1, h2, h3⟩
      rcases augmentRun_frame a s with ⟨g1, g2, g3⟩
      rw [augmentLoop_cons]
      exact ⟨h1.trans g1, h2.trans g2, h3.trans g3⟩
  exact h shuffles _

/-- **C10.**  With `un=True`, the returned data array is in ascending
lexicographic (code-point) order of the variant strings — the order
`np.unique` produces — regardless of the order in which accepted candidates
were generated. -/
theorem augment_unique_output_sorted [Add β] [Inhabited β]
    (shuffles : List (List Nat)) (data : List String) (labels : List β)
    (mutations : List Nat) :
    List.Sorted (fun a b => strLe a b = true)
      (augment shuffles data labels mutations true).1 := by
  rw [augment_true_fst, npIndex_npUniqueIdx]
  exact sorted_strSort _

/-- **C1 counterexample.**  Two source variants that mutate the same position
with different substitutions — `"S1A"` and `"S1R"` — are *not* rejected: they
contribute two distinct tokens, so the distinct-token count (2) equals the
summed mutation count (2) and the structurally invalid candidate `"S1A,S1R"`
is accepted into the returned arrays (twice, once for each pairing
direction), with summed label 3 and mutation count 2. -/
theorem augment_same_position_different_sub_accepted :
    augment [[1, 0]] ["S1A", "S1R"] ([1, 2] : List ℤ) [1, 1] false =
      (["S1A,S1R", "S1A,S1R"], [3, 3], [2, 2]) ∧
    "S1A,S1R" ∈ (augment [[1, 0]] ["S1A", "S1R"] ([1, 2] : List ℤ)
      [1, 1] false).1 := by
  decide

/-- **C1 (amended).**  The validity check compares whole tokens, not
positions: a combined candidate is discarded exactly when its distinct-token
count differs from the summed mutation count.  In particular, whenever the
two source variants share an *identical* token `t` (same position and same
substitution), the pair index `cj` lands in `to_del` and the run's output
arrays shrink below the dataset size; a shared *position* with different
substitutions (see the counterexample) yields distinct tokens and is kept. -/
theorem augment_shared_token_rejected [Add β] [Inhabited β]
    (sh : List Nat) (data : List String) (labels : List β)
    (mutations : List Nat) (cj pj : Nat) (t : String)
    (hl1 : labels.length = data.length) (hl2 : mutations.length = data.length)
    (hl3 : sh.length = data.length)
    (hcj : cj < data.length) (hsh : sh.getD cj 0 = pj) (hpj : pj < data.length)
    (hm1 : mutations.getD cj 0 = (splitComma (data.getD cj "")).length)
    (hm2 : mutations.getD pj 0 = (splitComma (data.getD pj "")).length)
    (ht1 : t ∈ splitComma (data.getD cj ""))
    (ht2 : t ∈ splitComma (data.getD pj "")) :
    cj ∈ runToDel data mutations sh ∧
    (augment [sh] data labels mutations false).1.length < data.length := by
  have hcjsh : cj < sh.length := by omega
  have hcjz : cj < (data.zip (npIndex data "" sh)).length := by
    rw [List.length_zip, length_npIndex, hl3]
    omega
  have hpair : (data.zip (npIndex data "" sh)).getD cj ("", "") =
      (data.getD cj "", data.getD pj "") := by
    rw [getD_zip _ _ _ _ _ hcj (by rw [length_npIndex]; exact hcjsh)]
    rw [getD_npIndex _ _ _ _ hcjsh, hsh]
  have hnm : (npAddN mutations (npIndex mutations 0 sh)).getD cj 0 =
      mutations.getD cj 0 + mutations.getD pj 0 := by
    rw [npAddN, getD_zipWith _ _ _ _ 0 0 0 (by omega)
      (by rw [length_npIndex]; exact hcjsh)]
    rw [getD_npIndex _ _ _ _ hcjsh, hsh]
  have hdup : ¬ (candTokens (data.getD cj "") (data.getD pj "")).Nodup := by
    rw [candTokens, nodup_strSort]
    intro hnd
    exact (List.nodup_append.1 hnd).2.2 ht1 ht2
  have hlen : (candTokens (data.getD cj "") (data.getD pj "")).length =
      (splitComma (data.getD cj "")).length +
        (splitComma (data.getD pj "")).length := by
    rw [candTokens, length_strSort, List.length_append]
  have hne : (candTokens (data.getD cj "") (data.getD pj "")).dedup.length ≠
      (npAddN mutations (npIndex mutations 0 sh)).getD cj 0 := by
    rw [hnm, hm1, hm2]
    intro heq
    apply hdup
    have hsub := List.dedup_sublist
      (candTokens (data.getD cj "") (data.getD pj ""))
    have heq' : (candTokens (data.getD cj "") (data.getD pj "")).dedup.length =
        (candTokens (data.getD cj "") (data.getD pj "")).length := by
      rw [heq, hlen]
    have hdd := hsub.eq_of_length heq'
    rw [← hdd]
    exact List.nodup_dedup _
  have hmem : cj ∈ runToDel data mutations sh := by
    rw [runToDel]
    refine List.mem_filter.2 ⟨List.mem_range.2 hcjz, ?_⟩
    rw [decide_eq_true_eq, hpair]
    exact hne
  refine ⟨hmem, ?_⟩
  have hrlen : (runNewData data sh).length = data.length := by
    rw [runNewData, List.length_map, List.length_zip, length_npIndex, hl3]
    omega
  have := length_npDelete_lt (runNewData data sh) ""
    (runToDel data mutations sh) cj (by rw [hrlen]; exact hcj) hmem
  calc (augment [sh] data labels mutations false).1.length
      = (npDelete (runNewData data sh) "" (runToDel data mutations sh)).length := by
        rw [augment_single_run]
    _ < (runNewData data sh).length := this
    _ = data.length := hrlen

/-- Witness for `augment_shared_token_rejected`: the identical token `"S1A"`
shared by rows 0 and 1 makes the run discard pair 0 (and pair 1), so with
`runs = 1` the output is shorter than the input. -/
theorem augment_shared_token_rejected_witness :
    0 ∈ runToDel ["S1A", "S1A"] [1, 1] [1, 0] ∧
    (augment [[1, 0]] ["S1A", "S1A"] ([1, 2] : List ℤ) [1, 1] false).1.length <
      (["S1A", "S1A"] : List String).length :=
  augment_shared_token_rejected [1, 0] ["S1A", "S1A"] [1, 2] [1, 1] 0 1 "S1A"
    (by decide) (by decide) (by decide) (by decide) (by decide) (by decide)
    (by decide) (by decide) (by decide) (by decide)

/-- **C7.**  When the two paired source variants mutate disjoint sets of
positions (each variant internally position-unique), all their tokens are
distinct, so the candidate passes the distinct-token check and the run keeps,
aligned across the three output arrays: the comma-join of the lexicographically
sorted token concatenation, the sum of the two labels, and the sum of the two
mutation counts. -/
theorem augment_disjoint_positions_accepted [Add β] [Inhabited β]
    (sh : List Nat) (data : List String) (labels : List β)
    (mutations : List Nat) (cj pj : Nat)
    (hl1 : labels.length = data.length) (hl2 : mutations.length = data.length)
    (hl3 : sh.length = data.length)
    (hcj : cj < data.length) (hsh : sh.getD cj 0 = pj) (hpj : pj < data.length)
    (hm1 : mutations.getD cj 0 = (splitComma (data.getD cj "")).length)
    (hm2 : mutations.getD pj 0 = (splitComma (data.getD pj "")).length)
    (hn1 : ((splitComma (data.getD cj "")).map tokenPos).Nodup)
    (hn2 : ((splitComma (data.getD pj "")).map tokenPos).Nodup)
    (hdisj : ∀ t1 ∈ splitComma (data.getD cj ""),
      ∀ t2 ∈ splitComma (data.getD pj ""), tokenPos t1 ≠ tokenPos t2) :
    cj ∉ runToDel data mutations sh ∧
    (joinComma (candTokens (data.getD cj "") (data.getD pj "")),
      labels.getD cj default + labels.getD pj default,
      mutations.getD cj 0 + mutations.getD pj 0) ∈
      (augment [sh] data labels mutations false).1.zip
        ((augment [sh] data labels mutations false).2.1.zip
          (augment [sh] data labels mutations false).2.2) := by
  have hcjsh : cj < sh.length := by omega
  have hcjz : cj < (data.zip (npIndex data "" sh)).length := by
    rw [List.length_zip, length_npIndex, hl3]
    omega
  have hpair : (data.zip (npIndex data "" sh)).getD cj ("", "") =
      (data.getD cj "", data.getD pj "") := by
    rw [getD_zip _ _ _ _ _ hcj (by rw [length_npIndex]; exact hcjsh)]
    rw [getD_npIndex _ _ _ _ hcjsh, hsh]
  have hnm : (npAddN mutations (npIndex mutations 0 sh)).getD cj 0 =
      mutations.getD cj 0 + mutations.getD pj 0 := by
    rw [npAddN, getD_zipWith _ _ _ _ 0 0 0 (by omega)
      (by rw [length_npIndex]; exact hcjsh)]
    rw [getD_npIndex _ _ _ _ hcjsh, hsh]
  have hnd : (candTokens (data.getD cj "") (data.getD pj "")).Nodup := by
    rw [candTokens, nodup_strSort]
    have hmapnd : ((splitComma (data.getD cj "") ++
        splitComma (data.getD pj "")).map tokenPos).Nodup := by
      rw [List.map_append]
      refine List.nodup_append.2 ⟨hn1, hn2, ?_⟩
      intro a ha hb
      rcases List.mem_map.1 ha with ⟨t1, ht1, rfl⟩
      rcases List.mem_map.1 hb with ⟨t2, ht2, he⟩
      exact hdisj t1 ht1 t2 ht2 he.symm
    exact hmapnd.of_map
  have heq : (candTokens (data.getD cj "") (data.getD pj "")).dedup.length =
      (npAddN mutations (npIndex mutations 0 sh)).getD cj 0 := by
    rw [List.dedup_eq_self.2 hnd, hnm, hm1, hm2, candTokens, length_strSort,
      List.length_append]
  have hnot : cj ∉ runToDel data mutations sh := by
    rw [runToDel]
    intro hmem
    have h2 := (List.mem_filter.1 hmem).2
    rw [decide_eq_true_eq, hpair] at h2
    exact h2 heq
  refine ⟨hnot, ?_⟩
  rw [augment_single_run]
  have hlA : (runNewData data sh).length = data.length := by
    rw [runNewData, List.length_map, List.length_zip, length_npIndex, hl3]
    omega
  have hlB : (npAdd labels (npIndex labels default sh)).length = data.length := by
    rw [npAdd, List.length_zipWith, length_npIndex, hl1, hl3]
    omega
  have hlC : (npAddN mutations (npIndex mutations 0 sh)).length =
      data.length := by
    rw [npAddN, List.length_zipWith, length_npIndex, hl2, hl3]
    omega
  rw [npDelete, npDelete, npDelete, hlA, hlB, hlC, List.zip_map',
    List.zip_map']
  refine List.mem_map.2 ⟨cj, mem_keepIdxs.2 ⟨hcj, hnot⟩, ?_⟩
  show ((runNewData data sh).getD cj "",
    ((npAdd labels (npIndex labels default sh)).getD cj default,
      (npAddN mutations (npIndex mutations 0 sh)).getD cj 0)) = _
  have e1 : (runNewData data sh).getD cj "" =
      joinComma (candTokens (data.getD cj "") (data.getD pj "")) := by
    rw [runNewData, getD_map _ _ _ ("", "") _ hcjz, hpair]
  have e2 : (npAdd labels (npIndex labels default sh)).getD cj default =
      labels.getD cj default + labels.getD pj default := by
    rw [npAdd, getD_zipWith _ _ _ _ default default default (by omega)
      (by rw [length_npIndex]; exact hcjsh)]
    rw [getD_npIndex _ _ _ _ hcjsh, hsh]
  rw [e1, e2, hnm]

/-- Witness for `augment_disjoint_positions_accepted`: `"S1A"` (position 1)
paired with `"D35T"` (position 35) yields the accepted candidate
`"D35T,S1A"` with label 3 and mutation count 2. -/
theorem augment_disjoint_positions_accepted_witness :
    0 ∉ runToDel ["S1A", "D35T"] [1, 1] [1, 0] ∧
    ("D35T,S1A", (3 : ℤ), 2) ∈
      (augment [[1, 0]] ["S1A", "D35T"] ([1, 2] : List ℤ) [1, 1] false).1.zip
        ((augment [[1, 0]] ["S1A", "D35T"] ([1, 2] : List ℤ) [1, 1]
            false).2.1.zip
          (augment [[1, 0]] ["S1A", "D35T"] ([1, 2] : List ℤ) [1, 1]
            false).2.2) := by
  have h := augment_disjoint_positions_accepted [1, 0] ["S1A", "D35T"]
    ([1, 2] : List ℤ) [1, 1] 0 1 (by decide) (by decide) (by decide)
    (by decide) (by decide) (by decide) (by decide) (by decide) (by decide)
    (by decide) (by decide)
  refine ⟨h.1, ?_⟩
  have h2 := h.2
  have he : (joinComma (candTokens ((["S1A", "D35T"] : List String).getD 0 "")
      ((["S1A", "D35T"] : List String).getD 1 "")),
      ([1, 2] : List ℤ).getD 0 default + ([1, 2] : List ℤ).getD 1 default,
      ([1, 1] : List Nat).getD 0 0 + ([1, 1] : List Nat).getD 1 0) =
      ("D35T,S1A", (3 : ℤ), 2) := by decide
  rw [he] at h2
  exact h2

/-- **C6.**  With `un=True`, the returned arrays hold exactly one entry per
distinct variant string of the accumulated augmented data (`Nodup`, same
membership), and the entry at each output position carries the label and
mutation count found at the *first* occurrence `j` of that string in the
accumulated (pre-deduplication) lists. -/
theorem augment_dedup_first_occurrence [Add β] [Inhabited β]
    (shuffles : List (List Nat)) (data : List String) (labels : List β)
    (mutations : List Nat) (i : Nat)
    (hi : i < (augment shuffles data labels mutations true).1.length) :
    (augment shuffles data labels mutations true).1.Nodup ∧
    (∀ v, v ∈ (augment shuffles data labels mutations true).1 ↔
      v ∈ (augment shuffles data labels mutations false).1) ∧
    ∃ j, j < (augment shuffles data labels mutations false).1.length ∧
      (augment shuffles data labels mutations false).1.getD j "" =
        (augment shuffles data labels mutations true).1.getD i "" ∧
      (∀ p, p < j →
        (augment shuffles data labels mutations false).1.getD p "" ≠
          (augment shuffles data labels mutations true).1.getD i "") ∧
      (augment shuffles data labels mutations true).2.1.getD i default =
        (augment shuffles data labels mutations false).2.1.getD j default ∧
      (augment shuffles data labels mutations true).2.2.getD i 0 =
        (augment shuffles data labels mutations false).2.2.getD j 0 := by
  have hfst : (augment shuffles data labels mutations true).1 =
      strSort (augmentLoop shuffles (augmentInit data labels mutations)).nd.dedup := by
    rw [augment_true_fst, npIndex_npUniqueIdx]
  have hffst : (augment shuffles data labels mutations false).1 =
      (augmentLoop shuffles (augmentInit data labels mutations)).nd := rfl
  refine ⟨?_, ?_, ?_⟩
  · rw [hfst]
    exact nodup_strSort.2 (List.nodup_dedup _)
  · intro v
    rw [hfst, hffst, mem_strSort, List.mem_dedup]
  · rw [hfst] at hi
    set nd := (augmentLoop shuffles (augmentInit data labels mutations)).nd
      with hnd
    have hv : (strSort nd.dedup).getD i "" ∈ strSort nd.dedup :=
      getD_mem _ _ _ hi
    have hv' : (strSort nd.dedup).getD i "" ∈ nd :=
      List.mem_dedup.1 (mem_strSort.1 hv)
    refine ⟨firstIdx nd ((strSort nd.dedup).getD i ""), ?_, ?_, ?_, ?_, ?_⟩
    · rw [hffst]
      exact firstIdx_lt_length hv'
    · rw [hffst, hfst]
      exact getD_firstIdx hv' ""
    · intro p hp
      rw [hffst, hfst]
      exact getD_lt_firstIdx hp ""
    · show (npIndex (augmentLoop shuffles
          (augmentInit data labels mutations)).nl default
          (npUniqueIdx nd)).getD i default = _
      rw [getD_npIndex _ _ _ _ (by
        rw [npUniqueIdx, List.length_map]
        rwa [length_strSort (l := nd.dedup)] at hi ⊢)]
      rw [npUniqueIdx, getD_map _ _ _ "" _ (by exact hi)]
      rfl
    · show (npIndex (augmentLoop shuffles
          (augmentInit data labels mutations)).nm 0
          (npUniqueIdx nd)).getD i 0 = _
      rw [getD_npIndex _ _ _ _ (by
        rw [npUniqueIdx, List.length_map]
        rwa [length_strSort (l := nd.dedup)] at hi ⊢)]
      rw [npUniqueIdx, getD_map _ _ _ "" _ (by exact hi)]
      rfl

/-- Witness for `augment_dedup_first_occurrence`: the run produces the
candidate `"D35T,S1A"` twice; after deduplication the output is
duplicate-free. -/
theorem augment_dedup_first_occurrence_witness :
    (augment [[1, 0]] ["S1A", "D35T"] ([1, 2] : List ℤ) [1, 1] true).1.Nodup :=
  (augment_dedup_first_occurrence [[1, 0]] ["S1A", "D35T"]
    ([1, 2] : List ℤ) [1, 1] 0 (by decide)).1

/-! ## Claims about `DataGenerator` -/

/-- **C2 (code bug).**  `on_epoch_end` stores a freshly shuffled index array
in `self.idx`, but `__getitem__` never consults `self.idx`: it slices
`self.features`/`self.labels` directly.  On a two-sample generator with
`shuffle=True`, after an epoch end whose shuffle produced the permutation
`[1, 0]`, batch 0 still holds the first-constructed sample `"A"` and batch 1
the second — the construction order, not the stored epoch order.  This
contradicts the class's own documentation ("shuffle: if True data gets
shuffled after every epoch"). -/
theorem dataGenerator_getitem_ignores_shuffle :
    (gToy.onEpochEnd [1, 0]).shuffle = true ∧
    (gToy.onEpochEnd [1, 0]).idx = some [1, 0] ∧
    (gToy.onEpochEnd [1, 0]).getItem 0 = (["A"], some [10]) ∧
    (gToy.onEpochEnd [1, 0]).getItem 1 = (["B"], some [20]) :=
  ⟨rfl, rfl, rfl, rfl⟩

/-- **C3 counterexample.**  `DataGenerator.__init__` is a sequence of plain
attribute assignments; it contains no comparison and no raise.  Constructing
a generator whose `dim = (2, 2)` disagrees with a `3×3` contact mask and
whose `n_channels = 5` is neither 6 nor 7 succeeds and stores the mismatched
parameters verbatim — no error is possible at construction time. -/
theorem dataGenerator_init_accepts_mismatch :
    (DataGenerator.init ["A"] ([0] : List ℤ) imx3 (2, 2) 5 1 0 [] [] [] [] 0
      [] [] 0 [] [] 0 [] 0 none none none true true).dim = (2, 2) ∧
    (DataGenerator.init ["A"] ([0] : List ℤ) imx3 (2, 2) 5 1 0 [] [] [] [] 0
      [] [] 0 [] [] 0 [] 0 none none none true true).interaction_matrix.length
      = 3 ∧
    (DataGenerator.init ["A"] ([0] : List ℤ) imx3 (2, 2) 5 1 0 [] [] [] [] 0
      [] [] 0 [] [] 0 [] 0 none none none true true).n_channels = 5 :=
  ⟨rfl, rfl, rfl⟩

/-- **C3 (amended).**  Construction performs no validation at all: even when
`dim` differs from the contact mask's shape or `n_channels` is neither 6 nor
7, `__init__` succeeds and every attribute equals the argument passed in
unchanged (and `self.idx` does not exist yet); a mismatch can only surface
later, when a batch is assembled. -/
theorem dataGenerator_init_stores_unvalidated (features : List String)
    (labels : List β) (interaction_matrix : List (List Bool))
    (dim : Nat × Nat) (n_channels batch_size first_ind : Nat)
    (hm_converted : List (Option ℚ)) (hm_pos_vals : List ℚ)
    (factor : List (List ℚ)) (hp_converted : List (Option ℚ)) (hp_norm : ℚ)
    (cm_converted ia_converted : List (Option ℚ)) (ia_norm : ℚ)
    (mat_index : List (List ℚ)) (cl_converted : List (Option ℚ)) (cl_norm : ℚ)
    (dist_mat : List (List ℚ)) (dist_th : ℚ)
    (co_converted : Option (List (Option ℚ)))
    (co_table : Option (List (List ℚ))) (co_rows : Option (List Nat))
    (shuffle train : Bool)
    (hmm : dim ≠ (interaction_matrix.length,
        (interaction_matrix.getD 0 []).length) ∨
      (n_channels ≠ 6 ∧ n_channels ≠ 7)) :
    (DataGenerator.init features labels interaction_matrix dim n_channels
      batch_size first_ind hm_converted hm_pos_vals factor hp_converted
      hp_norm cm_converted ia_converted ia_norm mat_index cl_converted cl_norm
      dist_mat dist_th co_converted co_table co_rows shuffle train).dim =
        dim ∧
    (DataGenerator.init features labels interaction_matrix dim n_channels
      batch_size first_ind hm_converted hm_pos_vals factor hp_converted
      hp_norm cm_converted ia_converted ia_norm mat_index cl_converted cl_norm
      dist_mat dist_th co_converted co_table co_rows shuffle
      train).n_channels = n_channels ∧
    (DataGenerator.init features labels interaction_matrix dim n_channels
      batch_size first_ind hm_converted hm_pos_vals factor hp_converted
      hp_norm cm_converted ia_converted ia_norm mat_index cl_converted cl_norm
      dist_mat dist_th co_converted co_table co_rows shuffle
      train).interaction_matrix = interaction_matrix ∧
    (DataGenerator.init features labels interaction_matrix dim n_channels
      batch_size first_ind hm_converted hm_pos_vals factor hp_converted
      hp_norm cm_converted ia_converted ia_norm mat_index cl_converted cl_norm
      dist_mat dist_th co_converted co_table co_rows shuffle train).features =
        features ∧
    (DataGenerator.init features labels interaction_matrix dim n_channels
      batch_size first_ind hm_converted hm_pos_vals factor hp_converted
      hp_norm cm_converted ia_converted ia_norm mat_index cl_converted cl_norm
      dist_mat dist_th co_converted co_table co_rows shuffle train).labels =
        labels ∧
    (DataGenerator.init features labels interaction_matrix dim n_channels
      batch_size first_ind hm_converted hm_pos_vals factor hp_converted
      hp_norm cm_converted ia_converted ia_norm mat_index cl_converted cl_norm
      dist_mat dist_th co_converted co_table co_rows shuffle train).idx =
        none :=
  ⟨rfl, rfl, rfl, rfl, rfl, rfl⟩

/-- Witness for `dataGenerator_init_stores_unvalidated` at the mismatched
concrete input of the counterexample. -/
theorem dataGenerator_init_stores_unvalidated_witness :
    (DataGenerator.init ["A"] ([0] : List ℤ) imx3 (2, 2) 5 1 0 [] [] [] [] 0
      [] [] 0 [] [] 0 [] 0 none none none true true).features = ["A"] ∧
    (DataGenerator.init ["A"] ([0] : List ℤ) imx3 (2, 2) 5 1 0 [] [] [] [] 0
      [] [] 0 [] [] 0 [] 0 none none none true true).idx = none := by
  have h := dataGenerator_init_stores_unvalidated ["A"] ([0] : List ℤ) imx3
    (2, 2) 5 1 0 [] [] [] [] 0 [] [] 0 [] [] 0 [] 0 none none none true true
    (by decide)
  exact ⟨h.2.2.2.1, h.2.2.2.2.2⟩

/-- **C5.**  The number of batches per epoch is the ceiling of
`N / batch_size` (as the integer `(N + batch_size - 1) / batch_size`), and
when `batch_size` does not divide `N` the final batch window holds exactly
the remaining `N % batch_size` samples. -/
theorem dataGenerator_len_ceil_last_batch (g : DataGenerator β)
    (hbs : 0 < g.batch_size) :
    g.lenBatches = (g.features.length + g.batch_size - 1) / g.batch_size ∧
    (g.features.length % g.batch_size ≠ 0 →
      (g.getItem (g.lenBatches - 1)).1.length =
        g.features.length % g.batch_size) := by
  set N := g.features.length with hN
  set bs := g.batch_size with hbsdef
  set K := (N + bs - 1) / bs with hK
  have h1 : bs * K + (N + bs - 1) % bs = N + bs - 1 := Nat.div_add_mod _ _
  have h2 : (N + bs - 1) % bs < bs := Nat.mod_lt _ hbs
  have hub : N ≤ bs * K := by omega
  have hlb : bs * K < N + bs := by omega
  have hbsQ : (0 : ℚ) < (bs : ℚ) := by exact_mod_cast hbs
  have hmulc : (bs : ℚ) * (K : ℚ) = (K : ℚ) * (bs : ℚ) := mul_comm _ _
  have hceil : g.lenBatches = K := by
    rw [DataGenerator.lenBatches, ← hN, ← hbsdef]
    have hceil' : ⌈(N : ℚ) / (bs : ℚ)⌉ = (K : ℤ) := by
      rw [Int.ceil_eq_iff]
      constructor
      · rw [lt_div_iff hbsQ]
        have hc : ((bs : ℚ)) * (K : ℚ) < (N : ℚ) + (bs : ℚ) := by
          exact_mod_cast hlb
        push_cast
        nlinarith [hc, hmulc]
      · rw [div_le_iff hbsQ]
        have hc : (N : ℚ) ≤ (bs : ℚ) * (K : ℚ) := by exact_mod_cast hub
        push_cast
        nlinarith [hc, hmulc]
    rw [hceil']
    exact Int.toNat_natCast K
  refine ⟨hceil, ?_⟩
  intro hr
  have hN0 : N ≠ 0 := by
    intro h0
    rw [h0] at hr
    exact hr (Nat.zero_mod bs)
  have hK1 : 1 ≤ K := by
    rcases Nat.eq_zero_or_pos K with h0 | h1
    · rw [h0, Nat.mul_zero] at hub
      omega
    · exact h1
  have hgi : (g.getItem (g.lenBatches - 1)).1 =
      (g.features.drop ((g.lenBatches - 1) * bs)).take bs := by
    simp only [DataGenerator.getItem, ← hbsdef]
    split <;> rfl
  rw [hgi, hceil, List.length_take, List.length_drop, ← hN]
  have hKbs : (K - 1) * bs = bs * K - bs := by
    cases K with
    | zero => simp
    | succ k =>
      simp only [Nat.succ_sub_one, Nat.mul_succ]
      rw [Nat.mul_comm]
      omega
  have hbsK : bs ≤ bs * K := by
    have := Nat.mul_le_mul_left bs hK1
    simpa using this
  set d := N - (K - 1) * bs with hd
  have hd1 : 1 ≤ d := by rw [hd, hKbs]; omega
  have hd2 : d ≤ bs := by rw [hd, hKbs]; omega
  have hNeq : N = (K - 1) * bs + d := by rw [hd, hKbs]; omega
  have hdbs : d ≠ bs := by
    intro he
    apply hr
    have hNK : N = K * bs := by
      rw [hNeq, he, hKbs, Nat.mul_comm K bs]
      omega
    rw [hNK]
    exact Nat.mul_mod_left K bs
  have hdlt : d < bs := lt_of_le_of_ne hd2 hdbs
  have hmod : N % bs = d := by
    conv_lhs => rw [hNeq]
    rw [Nat.add_comm, Nat.add_mul_mod_self_right]
    exact Nat.mod_eq_of_lt hdlt
  rw [hmod]
  omega

/-- Witness for `dataGenerator_len_ceil_last_batch`: 105 samples with batch
size 32 give 4 batches, the last holding 9 samples. -/
theorem dataGenerator_len_ceil_last_batch_witness :
    0 < g105.batch_size ∧ g105.lenBatches = 4 ∧
    (g105.getItem (g105.lenBatches - 1)).1.length = 9 := by
  have h := dataGenerator_len_ceil_last_batch g105 (by decide)
  refine ⟨by decide, ?_, ?_⟩
  · rw [h.1]
    decide
  · rw [h.2 (by decide)]
    decide

/-! ## Claims about `data_generator_vals` -/

/-- **C4 counterexample.**  The per-residue conversions use `dict.get`, which
returns `None` for a missing key instead of raising: on the sequence
`['A', 'Z']` with a table that only knows `'A'`, `data_generator_vals`
returns normally and its `hm_converted` array has full length 2 with a
silently defaulted `None` at the position of the unknown letter `'Z'` — no
`KeyError`-equivalent ever reaches the caller. -/
theorem data_generator_vals_silently_defaults :
    (data_generator_vals tblA tblA tblA tblA tblA tblA
      ['A', 'Z'] none).hm_converted.length = 2 ∧
    (data_generator_vals tblA tblA tblA tblA tblA tblA
      ['A', 'Z'] none).hm_converted.getD 1 (some 0) = none ∧
    ((data_generator_vals tblA tblA tblA tblA tblA tblA
      ['A', 'Z'] none).hm_converted.getD 0 none).isSome = true :=
  ⟨rfl, rfl, rfl⟩

/-- **C4 (amended).**  `data_generator_vals` never fails on an unrecognised
residue letter: each converted array is the element-wise `dict.get` image of
the wild-type sequence, so it always has the sequence's full length and
holds `None` (not an error, not a substitute property value) at every
position whose letter is missing from the corresponding table. -/
theorem data_generator_vals_lookup_none (h_bonding hydrophobicity charge sasa
    side_chain_length aa_dict_pos : List (Char × ℚ)) (wt_seq : List Char)
    (alignment : Option (List (List ℚ) × List Nat)) (i : Nat)
    (hi : i < wt_seq.length)
    (e1 : dictGet h_bonding (wt_seq.getD i 'A') = none)
    (e2 : dictGet hydrophobicity (wt_seq.getD i 'A') = none)
    (e3 : dictGet charge (wt_seq.getD i 'A') = none)
    (e4 : dictGet sasa (wt_seq.getD i 'A') = none)
    (e5 : dictGet side_chain_length (wt_seq.getD i 'A') = none) :
    (data_generator_vals h_bonding hydrophobicity charge sasa
      side_chain_length aa_dict_pos wt_seq alignment).hm_converted.length =
      wt_seq.length ∧
    (data_generator_vals h_bonding hydrophobicity charge sasa
      side_chain_length aa_dict_pos wt_seq alignment).hm_converted.getD i
      (some 0) = none ∧
    (data_generator_vals h_bonding hydrophobicity charge sasa
      side_chain_length aa_dict_pos wt_seq alignment).hp_converted.getD i
      (some 0) = none ∧
    (data_generator_vals h_bonding hydrophobicity charge sasa
      side_chain_length aa_dict_pos wt_seq alignment).cm_converted.getD i
      (some 0) = none ∧
    (data_generator_vals h_bonding hydrophobicity charge sasa
      side_chain_length aa_dict_pos wt_seq alignment).ia_converted.getD i
      (some 0) = none ∧
    (data_generator_vals h_bonding hydrophobicity charge sasa
      side_chain_length aa_dict_pos wt_seq alignment).cl_converted.getD i
      (some 0) = none := by
  refine ⟨?_, ?_, ?_, ?_, ?_, ?_⟩
  · show (wt_seq.map (dictGet h_bonding)).length = wt_seq.length
    rw [List.length_map]
  · show (wt_seq.map (dictGet h_bonding)).getD i (some 0) = none
    rw [getD_map _ _ _ 'A' _ hi, e1]
  · show (wt_seq.map (dictGet hydrophobicity)).getD i (some 0) = none
    rw [getD_map _ _ _ 'A' _ hi, e2]
  · show (wt_seq.map (dictGet charge)).getD i (some 0) = none
    rw [getD_map _ _ _ 'A' _ hi, e3]
  · show (wt_seq.map (dictGet sasa)).getD i (some 0) = none
    rw [getD_map _ _ _ 'A' _ hi, e4]
  · show (wt_seq.map (dictGet side_chain_length)).getD i (some 0) = none
    rw [getD_map _ _ _ 'A' _ hi, e5]

/-- Witness for `data_generator_vals_lookup_none` at the unknown letter
`'Z'`. -/
theorem data_generator_vals_lookup_none_witness :
    (data_generator_vals tblA tblA tblA tblA tblA tblA
      ['A', 'Z'] none).hm_converted.length = 2 ∧
    (data_generator_vals tblA tblA tblA tblA tblA tblA
      ['A', 'Z'] none).cl_converted.getD 1 (some 0) = none := by
  have h := data_generator_vals_lookup_none tblA tblA tblA tblA tblA tblA
    ['A', 'Z'] none 1 (by decide) (by decide) (by decide) (by decide)
    (by decide) (by decide)
  exact ⟨h.1, h.2.2.2.2.2⟩

/-- Entry `(i, j)` of `matIndexMat n`, for `i, j < n`. -/
theorem matIndexMat_getD (n i j : Nat) (hi : i < n) (hj : j < n) :
    ((matIndexMat n).getD i []).getD j 0 = matIndexEntry n i j := by
  rw [matIndexMat, getD_map _ _ _ 0 _ (by simpa using hi), getD_range _ _ hi,
    getD_map _ _ _ 0 _ (by simpa using hj), getD_range _ _ hj]

theorem matIndexEntry_symm (n i j : Nat) :
    matIndexEntry n i j = matIndexEntry n j i := by
  unfold matIndexEntry symIndex
  by_cases h : i = j
  · rw [if_pos h, if_pos h.symm]
  · have h' : ¬ j = i := fun he => h he.symm
    rw [if_neg h, if_neg h', if_neg h, if_neg h']
    ring

/-- **C8.**  For every wild-type sequence, the `mat_index` matrix returned by
`data_generator_vals` is `n×n` (`n` the sequence length), symmetric, and has
every diagonal entry exactly 0 (forced by `np.fill_diagonal`). -/
theorem mat_index_symmetric_zero_diagonal (h_bonding hydrophobicity charge
    sasa side_chain_length aa_dict_pos : List (Char × ℚ)) (wt_seq : List Char)
    (alignment : Option (List (List ℚ) × List Nat)) (i j : Nat)
    (hi : i < wt_seq.length) (hj : j < wt_seq.length) :
    (data_generator_vals h_bonding hydrophobicity charge sasa
      side_chain_length aa_dict_pos wt_seq alignment).mat_index.length =
      wt_seq.length ∧
    (((data_generator_vals h_bonding hydrophobicity charge sasa
      side_chain_length aa_dict_pos wt_seq alignment).mat_index.getD i
      []).length) = wt_seq.length ∧
    ((data_generator_vals h_bonding hydrophobicity charge sasa
      side_chain_length aa_dict_pos wt_seq alignment).mat_index.getD i
      []).getD j 0 =
      ((data_generator_vals h_bonding hydrophobicity charge sasa
        side_chain_length aa_dict_pos wt_seq alignment).mat_index.getD j
        []).getD i 0 ∧
    ((data_generator_vals h_bonding hydrophobicity charge sasa
      side_chain_length aa_dict_pos wt_seq alignment).mat_index.getD i
      []).getD i 0 = 0 := by
  have hM : (data_generator_vals h_bonding hydrophobicity charge sasa
      side_chain_length aa_dict_pos wt_seq alignment).mat_index =
      matIndexMat wt_seq.length := rfl
  rw [hM]
  refine ⟨?_, ?_, ?_, ?_⟩
  · rw [matIndexMat, List.length_map, List.length_range]
  · rw [matIndexMat, getD_map _ _ _ 0 _ (by simpa using hi),
      List.length_map, List.length_range]
  · rw [matIndexMat_getD _ _ _ hi hj, matIndexMat_getD _ _ _ hj hi]
    exact matIndexEntry_symm _ _ _
  · rw [matIndexMat_getD _ _ _ hi hi, matIndexEntry]
    exact if_pos rfl

/-- Witness for `mat_index_symmetric_zero_diagonal` on the length-3 sequence
`"AVL"` at entry `(1, 2)`. -/
theorem mat_index_symmetric_zero_diagonal_witness :
    (data_generator_vals tblA tblA tblA tblA tblA tblA
      ['A', 'V', 'L'] none).mat_index.length = 3 ∧
    ((data_generator_vals tblA tblA tblA tblA tblA tblA
      ['A', 'V', 'L'] none).mat_index.getD 1 []).getD 2 0 =
      ((data_generator_vals tblA tblA tblA tblA tblA tblA
        ['A', 'V', 'L'] none).mat_index.getD 2 []).getD 1 0 ∧
    ((data_generator_vals tblA tblA tblA tblA tblA tblA
      ['A', 'V', 'L'] none).mat_index.getD 1 []).getD 1 0 = 0 := by
  have h := mat_index_symmetric_zero_diagonal tblA tblA tblA tblA tblA tblA
    ['A', 'V', 'L'] none 1 2 (by decide) (by decide)
  exact ⟨h.1, h.2.2.1, h.2.2.2⟩
